import Mathlib

/-
Verification of the reconciliation and accounting loop of panel.go
(package ssrpanel).  The Go code is shallowly embedded: every external
call a cycle can make (database ping, heartbeat insert, stats reads,
user fetch, administrative add and remove) is an oracle recorded in an
Env value, the writes the cycle performs are collected as an event
trace, and the mutable panel state (the cached user list p.userModels
and the retry counter p.db.RetryTimes) is passed explicitly.
-/

set_option linter.unusedVariables false

namespace SSRPanel

/-- User record as read from the database and cached by the panel.
panel.go reads the fields ID, VmessID, Email and Port of UserModel;
equality between records is Go struct equality over all fields. -/
structure UserModel where
  ID : Nat
  VmessID : String
  Email : String
  Port : Nat
deriving DecidableEq, Repr

/-- Row written to the user traffic log table.  The Traffic column in Go
holds bytefmt.ByteSize applied to the billed byte count; the model stores
the byte count that is handed to that formatter. -/
structure UserTrafficLog where
  UserID : Nat
  Uplink : Nat
  Downlink : Nat
  NodeID : Nat
  Rate : ℚ
  Traffic : Nat
deriving DecidableEq, Repr

/-- Element of the slice returned by getTraffic: a UserTrafficLog plus
the user port (struct userStatsLogs in panel.go). -/
structure UserStatsLog extends UserTrafficLog where
  UserPort : Nat
deriving DecidableEq, Repr

/-- One externally visible database or RPC write performed during a
cycle.  bulkUpdate carries, per affected user, the user identifier and
the billed uplink and downlink deltas encoded in the single CASE update
statement. -/
inductive Event where
  | heartbeat : Event
  | trafficLog : UserTrafficLog → Event
  | onlineLog : Nat → Event
  | bulkUpdate : List (Nat × Nat × Nat) → Event
  | delUser : String → Event
  | addUser : UserModel → Event
deriving DecidableEq, Repr

/-- Outcome of every external call a cycle can make, together with the
configuration and node data the cycle reads.  The three Ok flags for the
traffic log insert, the online snapshot insert and the bulk update exist
only to record that panel.go never consults the results of those calls. -/
structure Env where
  pingOk : Bool
  heartbeatOk : Bool
  getUserDownlink : String → Except String Nat
  getUserUplink : String → Except String Nat
  getAllUsers : Except String (List UserModel)
  delUserOk : String → Bool
  addUserOk : UserModel → Bool
  ignoreEmptyVmessID : Bool
  trafficRate : ℚ
  nodeID : Nat
  trafficLogOk : Bool
  onlineLogOk : Bool
  bulkUpdateOk : Bool

/-- Mutable panel state across cycles: the cached provisioned user list
p.userModels and the database retry counter p.db.RetryTimes. -/
structure PanelState where
  userModels : List UserModel
  retryTimes : Nat
deriving DecidableEq, Repr

/-- Index of the first entry equal to u (full record equality), -1 when
absent; recursive form of the indexed loop findUserModelIndex in
panel.go. -/
def findUserModelIndex (u : UserModel) : List UserModel → Int
  | [] => -1
  | v :: rest =>
    if v = u then 0
    else if findUserModelIndex u rest = -1 then -1
    else findUserModelIndex u rest + 1

/-- inUserModels of panel.go: true when findUserModelIndex is not -1. -/
def inUserModels (u : UserModel) (userModels : List UserModel) : Bool :=
  findUserModelIndex u userModels != -1

/-- Billing step mulTrafficRate of panel.go, which computes
uint64(TrafficRate * float64(traffic)): the product truncated to an
integer byte count.  The model carries the rate as an exact rational and
truncates with floor, which agrees with the Go conversion for the
nonnegative rates the panel uses. -/
def mulTrafficRate (rate : ℚ) (traffic : Nat) : Nat :=
  (rate * (traffic : ℚ)).floor.toNat

/-- Assignment log.Traffic = ByteSize(uplink + downlink) performed in
Panel.do, where uplink and downlink are the billed values; the raw
Uplink and Downlink fields are left untouched. -/
def billLog (rate : ℚ) (l : UserTrafficLog) : UserTrafficLog :=
  { l with Traffic := mulTrafficRate rate l.Uplink + mulTrafficRate rate l.Downlink }

/-- Model of Panel.getTraffic: walk the cached user list, read downlink
then uplink from the stats service, abort on the first failing read, and
keep a log entry (raw byte values, node id, rate, Traffic still unset)
for every user whose raw uplink+downlink is positive. -/
def getTraffic (env : Env) : List UserModel → Except String (List UserStatsLog)
  | [] => .ok []
  | user :: rest =>
    match env.getUserDownlink user.Email with
    | .error e => .error e
    | .ok downlink =>
      match env.getUserUplink user.Email with
      | .error e => .error e
      | .ok uplink =>
        match getTraffic env rest with
        | .error e => .error e
        | .ok logs =>
          if 0 < uplink + downlink then
            .ok (⟨⟨user.ID, uplink, downlink, env.nodeID, env.trafficRate, 0⟩, user.Port⟩ :: logs)
          else
            .ok logs

/-- Result of the deletion loop of syncUser. -/
structure DelLoopResult where
  userModels : List UserModel
  deleted : Nat
  events : List Event
  err : Option String
deriving DecidableEq, Repr

/-- Result of the addition loop of syncUser.  err is the value of the
named return variable of syncUser after the loop: the result of the
most recent AddUser call, since a tolerated failure leaves the assigned
error in place unless a later call overwrites it. -/
structure AddLoopResult where
  userModels : List UserModel
  added : Nat
  events : List Event
  err : Option String
  fatal : Bool
deriving DecidableEq, Repr

/-- Deletion loop of syncUser: for each scheduled user still found in
the cached list, remove it from the cache (the Go code splices the slice
before issuing the call, so the entry is dropped even when the call then
fails), call DelUser with its email, stop with the error if the call
fails, otherwise count the deletion and continue. -/
def deleteLoop (env : Env) : List UserModel → List UserModel → Nat → List Event → DelLoopResult
  | [], userModels, deleted, events => ⟨userModels, deleted, events, none⟩
  | u :: rest, userModels, deleted, events =>
    if findUserModelIndex u userModels = -1 then
      deleteLoop env rest userModels deleted events
    else if env.delUserOk u.Email then
      deleteLoop env rest (userModels.eraseIdx (findUserModelIndex u userModels).toNat)
        (deleted + 1) (events ++ [Event.delUser u.Email])
    else
      ⟨userModels.eraseIdx (findUserModelIndex u userModels).toNat, deleted,
        events ++ [Event.delUser u.Email], some "del user err"⟩

/-- Addition loop of syncUser: call AddUser for each scheduled user,
assigning its result to the named return variable err; on success append
the user to the cache and count it; on failure either skip the user when
IgnoreEmptyVmessID is set (err keeps the error until a later call
overwrites it), or halt the process (fatal). -/
def addLoop (env : Env) : List UserModel → List UserModel → Nat → List Event → Option String → AddLoopResult
  | [], userModels, added, events, err => ⟨userModels, added, events, err, false⟩
  | u :: rest, userModels, added, events, err =>
    if env.addUserOk u then
      addLoop env rest (userModels ++ [u]) (added + 1) (events ++ [Event.addUser u]) none
    else if env.ignoreEmptyVmessID then
      addLoop env rest userModels added (events ++ [Event.addUser u]) (some "add user err")
    else
      ⟨userModels, added, events ++ [Event.addUser u], some "add user err", true⟩

/-- Result of one run of syncUser: the counters it returns, its error,
whether the process was halted inside the addition loop, the new cached
user list, and the administrative calls issued. -/
structure SyncResult where
  added : Nat
  deleted : Nat
  err : Option String
  fatal : Bool
  userModels : List UserModel
  events : List Event
deriving DecidableEq, Repr

/-- Model of Panel.syncUser: fetch the authoritative list, do nothing
when it is empty, otherwise diff both ways by full record equality, run
the deletion loop, and only if it did not fail run the addition loop.
The returned err is the named return variable: nil on the path that
reaches the addition loop (the last DelUser call succeeded or none ran),
and afterwards whatever the most recent AddUser call returned, so a
tolerated failure of the last scheduled addition is propagated. -/
def syncUser (env : Env) (prov : List UserModel) : SyncResult :=
  match env.getAllUsers with
  | .error e => ⟨0, 0, some e, false, prov, []⟩
  | .ok userModels =>
    if userModels.isEmpty then ⟨0, 0, none, false, prov, []⟩
    else
      let addUserModels := userModels.filter fun u => !(inUserModels u prov)
      let delUserModels := prov.filter fun u => !(inUserModels u userModels)
      let dres := deleteLoop env delUserModels prov 0 []
      match dres.err with
      | some e => ⟨0, dres.deleted, some e, false, dres.userModels, dres.events⟩
      | none =>
        let ares := addLoop env addUserModels dres.userModels 0 dres.events none
        ⟨ares.added, dres.deleted, ares.err, ares.fatal, ares.userModels, ares.events⟩

/-- Outcome of one cycle body: the value Panel.do returns, or fatal for
the process halt inside the addition loop. -/
inductive DoResult where
  | ok : DoResult
  | fail : String → DoResult
  | fatal : DoResult
deriving DecidableEq, Repr

/-- Model of Panel.do: ping guard (a failing ping increments the retry
counter and returns nil), reset of the retry counter, heartbeat row,
traffic collection, one traffic log row per collected user, online
snapshot when the online count is positive, one bulk totals update when
at least one user was collected, then reconciliation whose error is
assigned but never returned. -/
def doCycle (env : Env) (s : PanelState) : DoResult × PanelState × List Event :=
  if !env.pingOk then
    (.ok, ⟨s.userModels, s.retryTimes + 1⟩, [])
  else
    if !env.heartbeatOk then
      (.fail "heartbeat err", ⟨s.userModels, 0⟩, [Event.heartbeat])
    else
      match getTraffic env s.userModels with
      | .error e => (.fail e, ⟨s.userModels, 0⟩, [Event.heartbeat])
      | .ok logs =>
        let onlineUsers := (logs.filter fun l => 2048 < l.Uplink + l.Downlink).length
        let rows := logs.map fun l =>
          (l.UserID, mulTrafficRate env.trafficRate l.Uplink, mulTrafficRate env.trafficRate l.Downlink)
        let events := [Event.heartbeat]
          ++ logs.map (fun l => Event.trafficLog (billLog env.trafficRate l.toUserTrafficLog))
          ++ (if 0 < onlineUsers then [Event.onlineLog onlineUsers] else [])
          ++ (if rows.isEmpty then [] else [Event.bulkUpdate rows])
        let sres := syncUser env s.userModels
        if sres.fatal then
          (.fatal, ⟨sres.userModels, 0⟩, events ++ sres.events)
        else
          (.ok, ⟨sres.userModels, 0⟩, events ++ sres.events)

/-- True when a stats read returned an error. -/
def readFailed : Except String Nat → Bool
  | .error _ => true
  | .ok _ => false

/-- Recognizer for administrative remove events. -/
def Event.isDel : Event → Bool
  | .delUser _ => true
  | _ => false

/-- Recognizer for administrative add events. -/
def Event.isAdd : Event → Bool
  | .addUser _ => true
  | _ => false

/-- Recognizer for bulk totals update events. -/
def Event.isBulk : Event → Bool
  | .bulkUpdate _ => true
  | _ => false

/-- findUserModelIndex never returns a value below -1. -/
lemma findUserModelIndex_nonneg (u : UserModel) :
    ∀ l : List UserModel, findUserModelIndex u l = -1 ∨ 0 ≤ findUserModelIndex u l := by
  intro l
  induction l with
  | nil => left; rfl
  | cons a rest ih =>
    by_cases hva : a = u
    · right; simp [findUserModelIndex, hva]
    · rcases ih with h | h
      · left; simp [findUserModelIndex, hva, h]
      · by_cases hr : findUserModelIndex u rest = -1
        · left; simp [findUserModelIndex, hva, hr]
        · right
          simp only [findUserModelIndex, if_neg hva, if_neg hr]
          omega

/-- findUserModelIndex returns -1 exactly when the user is absent. -/
lemma findUserModelIndex_eq_neg_one_iff (u : UserModel) :
    ∀ l : List UserModel, findUserModelIndex u l = -1 ↔ u ∉ l := by
  intro l
  induction l with
  | nil => simp [findUserModelIndex]
  | cons a rest ih =>
    by_cases hva : a = u
    · subst hva
      simp [findUserModelIndex]
    · by_cases hr : findUserModelIndex u rest = -1
      · have hmem : u ∉ rest := (ih).mp hr
        have hvu : ¬u = a := fun h => hva h.symm
        simp [findUserModelIndex, hva, hr, hmem, hvu]
      · have hmem : u ∈ rest := by
          by_contra hc
          exact hr ((ih).mpr hc)
        have h0 : 0 ≤ findUserModelIndex u rest :=
          (findUserModelIndex_nonneg u rest).resolve_left hr
        simp only [findUserModelIndex, if_neg hva, if_neg hr]
        constructor
        · intro h; omega
        · intro h; exact absurd hmem (by simp_all)

/-- inUserModels decides full record membership. -/
@[simp] lemma inUserModels_iff (u : UserModel) (l : List UserModel) :
    inUserModels u l = true ↔ u ∈ l := by
  unfold inUserModels
  rw [bne_iff_ne, ne_eq, findUserModelIndex_eq_neg_one_iff, not_not]

/-- Negated form of the membership test. -/
@[simp] lemma inUserModels_eq_false_iff (u : UserModel) (l : List UserModel) :
    inUserModels u l = false ↔ u ∉ l := by
  rw [← Bool.not_eq_true, inUserModels_iff]

/-- Head hit of the index search. -/
lemma findUserModelIndex_cons_self (u : UserModel) (l : List UserModel) :
    findUserModelIndex u (u :: l) = 0 := by
  simp [findUserModelIndex]

/-- When the head of the cache differs from every scheduled deletion,
the deletion loop keeps the head and acts on the tail. -/
lemma deleteLoop_cons_skip (env : Env) (a : UserModel) :
    ∀ (ds l : List UserModel) (k : Nat) (evs : List Event), (∀ d ∈ ds, d ≠ a) →
    deleteLoop env ds (a :: l) k evs =
      { deleteLoop env ds l k evs with
        userModels := a :: (deleteLoop env ds l k evs).userModels } := by
  intro ds
  induction ds with
  | nil => intro l k evs h; rfl
  | cons d rest ih =>
    intro l k evs h
    have hda : d ≠ a := h d (by simp)
    have had : ¬(a = d) := fun hh => hda hh.symm
    have hrest : ∀ x ∈ rest, x ≠ a := fun x hx => h x (by simp [hx])
    by_cases hr : findUserModelIndex d l = -1
    · have hfa : findUserModelIndex d (a :: l) = -1 := by
        simp [findUserModelIndex, had, hr]
      simp only [deleteLoop, hfa, hr, if_pos rfl]
      exact ih l k evs hrest
    · have h0 : 0 ≤ findUserModelIndex d l :=
        (findUserModelIndex_nonneg d l).resolve_left hr
      have hfa : findUserModelIndex d (a :: l) = findUserModelIndex d l + 1 := by
        simp [findUserModelIndex, had, hr]
      have hfane : ¬(findUserModelIndex d (a :: l) = -1) := by omega
      have htn : (findUserModelIndex d (a :: l)).toNat = (findUserModelIndex d l).toNat + 1 := by
        omega
      have herase : (a :: l).eraseIdx (findUserModelIndex d (a :: l)).toNat =
          a :: l.eraseIdx (findUserModelIndex d l).toNat := by
        rw [htn]; rfl
      simp only [deleteLoop, if_neg hfane, if_neg hr, herase]
      by_cases hok : env.delUserOk d.Email
      · simp only [if_pos hok]
        exact ih _ _ _ hrest
      · simp only [if_neg hok]

/-- When every removal call succeeds, the deletion loop applied to the
users of the cache failing P removes exactly those entries, counts them,
and issues one remove call per entry in order. -/
lemma deleteLoop_filter_ok (env : Env) (P : UserModel → Bool) :
    ∀ (l : List UserModel) (k : Nat) (evs : List Event),
    (∀ v ∈ l.filter (fun u => !P u), env.delUserOk v.Email = true) →
    deleteLoop env (l.filter fun u => !P u) l k evs =
      ⟨l.filter P, k + (l.filter fun u => !P u).length,
       evs ++ (l.filter fun u => !P u).map (fun v => Event.delUser v.Email), none⟩ := by
  intro l
  induction l with
  | nil => intro k evs h; simp [deleteLoop]
  | cons a rest ih =>
    intro k evs h
    by_cases hpa : P a
    · have hfe : (a :: rest).filter (fun u => !P u) = rest.filter (fun u => !P u) := by
        simp [List.filter_cons, hpa]
      rw [hfe] at h ⊢
      have hne : ∀ d ∈ rest.filter (fun u => !P u), d ≠ a := by
        intro d hd hda
        have hfd := List.of_mem_filter hd
        rw [hda, hpa] at hfd
        simp at hfd
      rw [deleteLoop_cons_skip env a _ rest k evs hne, ih k evs h]
      simp [List.filter_cons, hpa]
    · have hfe : (a :: rest).filter (fun u => !P u) = a :: rest.filter (fun u => !P u) := by
        simp [List.filter_cons, hpa]
      rw [hfe] at h ⊢
      have hok : env.delUserOk a.Email = true := h a (by simp)
      have hrest : ∀ v ∈ rest.filter (fun u => !P u), env.delUserOk v.Email = true := by
        intro v hv; exact h v (by simp [hv])
      have hidx := findUserModelIndex_cons_self a rest
      simp only [deleteLoop, hidx]
      norm_num
      rw [if_pos hok]
      show deleteLoop env (rest.filter fun u => !P u) ((a :: rest).eraseIdx 0) (k + 1)
        (evs ++ [Event.delUser a.Email]) = _
      rw [show (a :: rest).eraseIdx 0 = rest from rfl, ih (k + 1) (evs ++ [Event.delUser a.Email]) hrest]
      simp [List.filter_cons, hpa]
      omega

/-- When the scheduled deletions split as a successful prefix, a failing
user, and a remainder, the deletion loop issues exactly the calls for the
prefix and the failing user, counts only the prefix, stops with the
error, and touches nothing after the failure. -/
lemma deleteLoop_filter_fail (env : Env) (P : UserModel → Bool) :
    ∀ (l ds₁ : List UserModel) (u : UserModel) (ds₂ : List UserModel) (k : Nat) (evs : List Event),
    l.filter (fun v => !P v) = ds₁ ++ u :: ds₂ →
    (∀ v ∈ ds₁, env.delUserOk v.Email = true) →
    env.delUserOk u.Email = false →
    ∃ rem, deleteLoop env (l.filter fun v => !P v) l k evs =
      ⟨rem, k + ds₁.length,
       evs ++ ds₁.map (fun v => Event.delUser v.Email) ++ [Event.delUser u.Email],
       some "del user err"⟩ := by
  intro l
  induction l with
  | nil =>
    intro ds₁ u ds₂ k evs hsplit h1 hu
    simp at hsplit
  | cons a rest ih =>
    intro ds₁ u ds₂ k evs hsplit h1 hu
    by_cases hpa : P a
    · have hfe : (a :: rest).filter (fun v => !P v) = rest.filter (fun v => !P v) := by
        simp [List.filter_cons, hpa]
      rw [hfe] at hsplit ⊢
      have hne : ∀ d ∈ rest.filter (fun v => !P v), d ≠ a := by
        intro d hd hda
        have hfd := List.of_mem_filter hd
        rw [hda, hpa] at hfd
        simp at hfd
      obtain ⟨rem, hrem⟩ := ih ds₁ u ds₂ k evs hsplit h1 hu
      refine ⟨a :: rem, ?_⟩
      rw [deleteLoop_cons_skip env a _ rest k evs hne, hrem]
    · have hfe : (a :: rest).filter (fun v => !P v) = a :: rest.filter (fun v => !P v) := by
        simp [List.filter_cons, hpa]
      rw [hfe] at hsplit ⊢
      have hidx := findUserModelIndex_cons_self a rest
      cases ds₁ with
      | nil =>
        have hau : a = u := by
          simpa using congrArg (fun t => t.head?) hsplit
        subst hau
        simp only [deleteLoop, hidx]
        norm_num
        rw [if_neg (by simp [hu])]
        refine ⟨rest, ?_⟩
        simp
      | cons b ds₁' =>
        have hab : a = b := by
          simpa using congrArg (fun t => t.head?) hsplit
        subst hab
        have htail : rest.filter (fun v => !P v) = ds₁' ++ u :: ds₂ := by
          simpa using congrArg (fun t => t.tail) hsplit
        have hok : env.delUserOk a.Email = true := h1 a (by simp)
        have h1' : ∀ v ∈ ds₁', env.delUserOk v.Email = true := by
          intro v hv; exact h1 v (by simp [hv])
        simp only [deleteLoop, hidx]
        norm_num
        rw [if_pos hok]
        show ∃ rem, deleteLoop env (rest.filter fun v => !P v) ((a :: rest).eraseIdx 0) (k + 1)
          (evs ++ [Event.delUser a.Email]) = _
        rw [show (a :: rest).eraseIdx 0 = rest from rfl]
        obtain ⟨rem, hrem⟩ := ih ds₁' u ds₂ (k + 1) (evs ++ [Event.delUser a.Email]) htail h1' hu
        refine ⟨rem, ?_⟩
        rw [htail] at hrem
        rw [htail, hrem]
        congr 1
        · omega
        · simp

/-- Final value of the named return variable err after the addition
loop: the result of the most recent AddUser call, or the incoming value
when no call is made. -/
def addLoopErr (env : Env) : List UserModel → Option String → Option String
  | [], err => err
  | u :: rest, _ =>
    addLoopErr env rest (if env.addUserOk u then none else some "add user err")

/-- When no addition can be fatal (tolerant configuration, or every add
call succeeds), the addition loop attempts every scheduled user in
order, appends exactly the successful ones, counts them, and leaves in
err the result of the last call made. -/
lemma addLoop_no_fatal (env : Env)
    (hsafe : env.ignoreEmptyVmessID = true ∨ ∀ u, env.addUserOk u = true) :
    ∀ (adds l : List UserModel) (n : Nat) (evs : List Event) (err : Option String),
    addLoop env adds l n evs err =
      ⟨l ++ adds.filter env.addUserOk, n + (adds.filter env.addUserOk).length,
       evs ++ adds.map Event.addUser, addLoopErr env adds err, false⟩ := by
  intro adds
  induction adds with
  | nil => intro l n evs err; simp [addLoop, addLoopErr]
  | cons a rest ih =>
    intro l n evs err
    by_cases hok : env.addUserOk a = true
    · simp only [addLoop, addLoopErr, hok, if_true]
      rw [ih]
      simp [List.filter_cons, hok]
      omega
    · have hig : env.ignoreEmptyVmessID = true := by
        rcases hsafe with h | h
        · exact h
        · exact absurd (h a) hok
      have hok' : env.addUserOk a = false := by simpa using hok
      simp only [addLoop, addLoopErr, hok', hig, Bool.false_eq_true, if_false, if_true]
      rw [ih]
      simp [List.filter_cons, hok']

/-- With every addition succeeding, the final err is the incoming value
for an empty schedule and nil otherwise. -/
lemma addLoopErr_all_ok (env : Env) (hadd : ∀ u, env.addUserOk u = true) :
    ∀ (adds : List UserModel) (err : Option String),
    addLoopErr env adds err = if adds.isEmpty then err else none := by
  intro adds
  induction adds with
  | nil => intro err; simp [addLoopErr]
  | cons a rest ih =>
    intro err
    simp only [addLoopErr, hadd a, if_true, ih]
    cases rest with
    | nil => simp [addLoopErr]
    | cons b l => simp

/-- With the tolerant flag off, any failing scheduled addition makes the
addition loop halt the process. -/
lemma addLoop_fatal (env : Env) (hig : env.ignoreEmptyVmessID = false) :
    ∀ (adds : List UserModel), (∃ u ∈ adds, env.addUserOk u = false) →
    ∀ (l : List UserModel) (n : Nat) (evs : List Event) (err : Option String),
    (addLoop env adds l n evs err).fatal = true := by
  intro adds
  induction adds with
  | nil => intro h; simp at h
  | cons a rest ih =>
    intro h l n evs err
    by_cases hok : env.addUserOk a = true
    · have hrest : ∃ u ∈ rest, env.addUserOk u = false := by
        rcases h with ⟨u, hu, hfalse⟩
        rcases List.mem_cons.mp hu with rfl | hmem
        · rw [hok] at hfalse; cases hfalse
        · exact ⟨u, hmem, hfalse⟩
      simp only [addLoop, hok, if_true]
      exact ih hrest _ _ _ _
    · simp [addLoop, hok, hig]

/-- The deletion loop only appends remove events to its accumulator. -/
lemma deleteLoop_events_split (env : Env) :
    ∀ (ds l : List UserModel) (k : Nat) (evs : List Event),
    ∃ tail, (deleteLoop env ds l k evs).events = evs ++ tail ∧
      ∀ e ∈ tail, e.isDel = true := by
  intro ds
  induction ds with
  | nil => intro l k evs; exact ⟨[], by simp [deleteLoop], by simp⟩
  | cons d rest ih =>
    intro l k evs
    by_cases hfd : findUserModelIndex d l = -1
    · simp only [deleteLoop, hfd, if_pos rfl]
      exact ih l k evs
    · by_cases hok : env.delUserOk d.Email = true
      · simp only [deleteLoop, if_neg hfd, hok, if_true]
        obtain ⟨tail, htl, hall⟩ := ih (l.eraseIdx (findUserModelIndex d l).toNat)
          (k + 1) (evs ++ [Event.delUser d.Email])
        refine ⟨Event.delUser d.Email :: tail, ?_, ?_⟩
        · rw [htl]; simp
        · intro e he
          rcases List.mem_cons.mp he with rfl | hmem
          · rfl
          · exact hall e hmem
      · have hok' : env.delUserOk d.Email = false := by simpa using hok
        simp only [deleteLoop, if_neg hfd, hok', Bool.false_eq_true, if_false]
        refine ⟨[Event.delUser d.Email], by simp, ?_⟩
        intro e he
        rcases List.mem_singleton.mp he with rfl
        rfl

/-- The addition loop only appends add events to its accumulator. -/
lemma addLoop_events_split (env : Env) :
    ∀ (adds l : List UserModel) (n : Nat) (evs : List Event) (err : Option String),
    ∃ tail, (addLoop env adds l n evs err).events = evs ++ tail ∧
      ∀ e ∈ tail, e.isAdd = true := by
  intro adds
  induction adds with
  | nil => intro l n evs err; exact ⟨[], by simp [addLoop], by simp⟩
  | cons a rest ih =>
    intro l n evs err
    by_cases hok : env.addUserOk a = true
    · simp only [addLoop, hok, if_true]
      obtain ⟨tail, htl, hall⟩ := ih (l ++ [a]) (n + 1) (evs ++ [Event.addUser a]) none
      refine ⟨Event.addUser a :: tail, ?_, ?_⟩
      · rw [htl]; simp
      · intro e he
        rcases List.mem_cons.mp he with rfl | hmem
        · rfl
        · exact hall e hmem
    · have hok' : env.addUserOk a = false := by simpa using hok
      by_cases hig : env.ignoreEmptyVmessID = true
      · simp only [addLoop, hok', Bool.false_eq_true, if_false, hig, if_true]
        obtain ⟨tail, htl, hall⟩ := ih l n (evs ++ [Event.addUser a]) (some "add user err")
        refine ⟨Event.addUser a :: tail, ?_, ?_⟩
        · rw [htl]; simp
        · intro e he
          rcases List.mem_cons.mp he with rfl | hmem
          · rfl
          · exact hall e hmem
      · have hig' : env.ignoreEmptyVmessID = false := by simpa using hig
        simp only [addLoop, hok', hig', Bool.false_eq_true, if_false]
        refine ⟨[Event.addUser a], by simp, ?_⟩
        intro e he
        rcases List.mem_singleton.mp he with rfl
        rfl

/-- Characterization of syncUser when the authoritative fetch succeeds
with a nonempty list, every scheduled removal call succeeds, and the
addition loop cannot halt the process: the cache becomes the provisioned
entries still authoritative followed by the successfully added new
authoritative entries, and the events are the removals followed by the
additions. -/
lemma syncUser_ok_char (env : Env) (prov auth : List UserModel)
    (hget : env.getAllUsers = .ok auth) (hne : auth ≠ [])
    (hdel : ∀ v ∈ prov.filter (fun u => !(inUserModels u auth)), env.delUserOk v.Email = true)
    (hsafe : env.ignoreEmptyVmessID = true ∨ ∀ u, env.addUserOk u = true) :
    syncUser env prov =
      ⟨((auth.filter fun u => !(inUserModels u prov)).filter env.addUserOk).length,
       (prov.filter fun u => !(inUserModels u auth)).length,
       addLoopErr env (auth.filter fun u => !(inUserModels u prov)) none, false,
       (prov.filter fun u => inUserModels u auth)
         ++ (auth.filter fun u => !(inUserModels u prov)).filter env.addUserOk,
       (prov.filter fun u => !(inUserModels u auth)).map (fun v => Event.delUser v.Email)
         ++ (auth.filter fun u => !(inUserModels u prov)).map Event.addUser⟩ := by
  have hie : auth.isEmpty = false := by
    cases auth with
    | nil => exact absurd rfl hne
    | cons a l => rfl
  simp only [syncUser, hget, hie, Bool.false_eq_true, if_false]
  rw [deleteLoop_filter_ok env (fun u => inUserModels u auth) prov 0 [] hdel]
  rw [addLoop_no_fatal env hsafe]
  simp

/-- Characterization of syncUser when a scheduled removal fails: the
loop stops at the first failing removal, only the preceding removals are
counted, the error is reported, and no addition is attempted. -/
lemma syncUser_del_fail (env : Env) (prov auth ds₁ : List UserModel) (u : UserModel)
    (ds₂ : List UserModel)
    (hget : env.getAllUsers = .ok auth) (hne : auth ≠ [])
    (hsplit : prov.filter (fun v => !(inUserModels v auth)) = ds₁ ++ u :: ds₂)
    (h1 : ∀ v ∈ ds₁, env.delUserOk v.Email = true)
    (hu : env.delUserOk u.Email = false) :
    ∃ rem, syncUser env prov =
      ⟨0, ds₁.length, some "del user err", false, rem,
       ds₁.map (fun v => Event.delUser v.Email) ++ [Event.delUser u.Email]⟩ := by
  have hie : auth.isEmpty = false := by
    cases auth with
    | nil => exact absurd rfl hne
    | cons a l => rfl
  obtain ⟨rem, hrem⟩ := deleteLoop_filter_fail env (fun v => inUserModels v auth)
    prov ds₁ u ds₂ 0 [] hsplit h1 hu
  refine ⟨rem, ?_⟩
  simp only [syncUser, hget, hie, Bool.false_eq_true, if_false]
  rw [hrem]
  simp

/-- When every stats read succeeds the traffic collection returns a
list. -/
lemma getTraffic_ok_exists (env : Env) :
    ∀ users : List UserModel,
    (∀ u ∈ users, readFailed (env.getUserDownlink u.Email) = false ∧
        readFailed (env.getUserUplink u.Email) = false) →
    ∃ logs, getTraffic env users = .ok logs := by
  intro users
  induction users with
  | nil => intro h; exact ⟨[], rfl⟩
  | cons a rest ih =>
    intro h
    obtain ⟨hdf, huf⟩ := h a (by simp)
    obtain ⟨downv, hdeq⟩ : ∃ d, env.getUserDownlink a.Email = .ok d := by
      cases hh : env.getUserDownlink a.Email with
      | error e => rw [hh] at hdf; simp [readFailed] at hdf
      | ok d => exact ⟨d, rfl⟩
    obtain ⟨upv, hueq⟩ : ∃ v, env.getUserUplink a.Email = .ok v := by
      cases hh : env.getUserUplink a.Email with
      | error e => rw [hh] at huf; simp [readFailed] at huf
      | ok v => exact ⟨v, rfl⟩
    obtain ⟨logs, hlogs⟩ := ih (fun v hv => h v (by simp [hv]))
    by_cases hpos : 0 < upv + downv
    · exact ⟨⟨⟨a.ID, upv, downv, env.nodeID, env.trafficRate, 0⟩, a.Port⟩ :: logs,
        by simp [getTraffic, hdeq, hueq, hlogs, hpos]⟩
    · exact ⟨logs, by simp [getTraffic, hdeq, hueq, hlogs, hpos]⟩

/-- Every user whose reads succeed with positive raw traffic has its
raw log entry (values stored verbatim) in the collected list. -/
lemma getTraffic_mem (env : Env) :
    ∀ (users : List UserModel) (logs : List UserStatsLog) (u : UserModel) (upv downv : Nat),
    getTraffic env users = .ok logs →
    u ∈ users →
    env.getUserDownlink u.Email = .ok downv →
    env.getUserUplink u.Email = .ok upv →
    0 < upv + downv →
    (⟨⟨u.ID, upv, downv, env.nodeID, env.trafficRate, 0⟩, u.Port⟩ : UserStatsLog) ∈ logs := by
  intro users
  induction users with
  | nil => intro logs u upv downv hok hmem; simp at hmem
  | cons a rest ih =>
    intro logs u upv downv hok hmem hd hu hpos
    rcases List.mem_cons.mp hmem with rfl | hmem'
    · rw [getTraffic, hd, hu] at hok
      cases hr : getTraffic env rest with
      | error e => rw [hr] at hok; simp at hok
      | ok logs' =>
        rw [hr] at hok
        simp only [hpos, if_true, Except.ok.injEq] at hok
        rw [← hok]
        simp
    · rw [getTraffic] at hok
      cases hda : env.getUserDownlink a.Email with
      | error e => rw [hda] at hok; simp at hok
      | ok da =>
        rw [hda] at hok
        cases hua : env.getUserUplink a.Email with
        | error e => rw [hua] at hok; simp at hok
        | ok ua =>
          rw [hua] at hok
          cases hr : getTraffic env rest with
          | error e => rw [hr] at hok; simp at hok
          | ok logs' =>
            rw [hr] at hok
            by_cases hpa : 0 < ua + da
            · simp only [hpa, if_true, Except.ok.injEq] at hok
              rw [← hok]
              exact List.mem_cons_of_mem _ (ih logs' u upv downv hr hmem' hd hu hpos)
            · simp only [hpa, if_false, Except.ok.injEq] at hok
              rw [← hok]
              exact ih logs' u upv downv hr hmem' hd hu hpos

/-- When some user in the walked list has a failing uplink or downlink
read, the traffic collection aborts with an error. -/
lemma getTraffic_error_exists (env : Env) :
    ∀ users : List UserModel,
    (∃ u ∈ users, readFailed (env.getUserDownlink u.Email) = true ∨
        readFailed (env.getUserUplink u.Email) = true) →
    ∃ e, getTraffic env users = .error e := by
  intro users
  induction users with
  | nil => intro h; simp at h
  | cons a rest ih =>
    intro h
    cases hda : env.getUserDownlink a.Email with
    | error e => exact ⟨e, by simp [getTraffic, hda]⟩
    | ok da =>
      cases hua : env.getUserUplink a.Email with
      | error e => exact ⟨e, by simp [getTraffic, hda, hua]⟩
      | ok ua =>
        have hrest : ∃ u ∈ rest, readFailed (env.getUserDownlink u.Email) = true ∨
            readFailed (env.getUserUplink u.Email) = true := by
          rcases h with ⟨u, hu, hfail⟩
          rcases List.mem_cons.mp hu with rfl | hmem
          · rcases hfail with hf | hf
            · rw [hda] at hf; simp [readFailed] at hf
            · rw [hua] at hf; simp [readFailed] at hf
          · exact ⟨u, hmem, hfail⟩
        obtain ⟨e, herr⟩ := ih hrest
        exact ⟨e, by simp [getTraffic, hda, hua, herr]⟩

/-- syncUser can only halt the process when the tolerant flag is off and
some add call fails. -/
lemma syncUser_not_fatal (env : Env) (prov : List UserModel)
    (hsafe : env.ignoreEmptyVmessID = true ∨ ∀ u, env.addUserOk u = true) :
    (syncUser env prov).fatal = false := by
  unfold syncUser
  cases hga : env.getAllUsers with
  | error e => rfl
  | ok auth =>
    by_cases hie : auth.isEmpty = true
    · simp [hie]
    · have hie' : auth.isEmpty = false := by simpa using hie
      simp only [hie', Bool.false_eq_true, if_false]
      cases hde : (deleteLoop env (prov.filter fun u => !(inUserModels u auth)) prov 0 []).err with
      | some e => simp [hde]
      | none =>
        rw [addLoop_no_fatal env hsafe]

/-- Concrete user records used by witnesses and counterexamples. -/
def uA : UserModel := ⟨1, "id-a", "a@node", 1001⟩

/-- Second concrete user record. -/
def uB : UserModel := ⟨2, "id-b", "b@node", 1002⟩

/-- Third concrete user record. -/
def uC : UserModel := ⟨3, "id-c", "c@node", 1003⟩

/-- C8: if the fetched authoritative user list is empty, reconciliation
does nothing: no add or remove call is issued and the cached provisioned
list is left unchanged. -/
theorem c8_empty_auth_noop (env : Env) (prov : List UserModel)
    (hget : env.getAllUsers = .ok []) :
    syncUser env prov = ⟨0, 0, none, false, prov, []⟩ := by
  simp [syncUser, hget]

/-- Environment whose authoritative fetch returns the empty list while
every other call would succeed. -/
def envEmptyAuth : Env :=
  ⟨true, true, fun _ => .ok 0, fun _ => .ok 0, .ok [], fun _ => true, fun _ => true,
   true, 1, 7, true, true, true⟩

/-- Witness: c8_empty_auth_noop at a concrete environment and cache. -/
theorem c8_empty_auth_noop_witness :
    syncUser envEmptyAuth [uA] = ⟨0, 0, none, false, [uA], []⟩ :=
  c8_empty_auth_noop envEmptyAuth [uA] rfl

/-- C2: a failing database ping increments the retry counter by exactly
one while the cycle performs no heartbeat, traffic log, online snapshot,
bulk update or administrative call and leaves the cached user list
unchanged (the cycle body still returns nil); a successful ping resets
the retry counter to zero. -/
theorem c2_ping_guard (env : Env) (s : PanelState) :
    (env.pingOk = false →
      doCycle env s = (DoResult.ok, ⟨s.userModels, s.retryTimes + 1⟩, [])) ∧
    (env.pingOk = true → (doCycle env s).2.1.retryTimes = 0) := by
  constructor
  · intro h
    simp [doCycle, h]
  · intro h
    simp only [doCycle, h, Bool.not_true, Bool.false_eq_true, if_false]
    by_cases hb : env.heartbeatOk = true
    · simp only [hb, Bool.not_true, Bool.false_eq_true, if_false]
      cases hgt : getTraffic env s.userModels with
      | error e => rfl
      | ok logs =>
        by_cases hf : (syncUser env s.userModels).fatal = true
        · simp [hf]
        · simp [hf]
    · have hb' : env.heartbeatOk = false := by simpa using hb
      simp [hb']

/-- Environment with an unreachable database. -/
def envPingDown : Env :=
  ⟨false, true, fun _ => .ok 0, fun _ => .ok 0, .ok [uB], fun _ => true, fun _ => true,
   true, 1, 7, true, true, true⟩

/-- Environment in which everything succeeds: the node cache holds uA,
the stats reads return 1500 up and 700 down, the billing rate is 2, and
the authoritative list is uB. -/
def envAllOk : Env :=
  ⟨true, true, fun _ => .ok 700, fun _ => .ok 1500, .ok [uB], fun _ => true, fun _ => true,
   true, 2, 7, true, true, true⟩

/-- Witness: c2_ping_guard on the two concrete environments. -/
theorem c2_ping_guard_witness :
    doCycle envPingDown ⟨[uA], 3⟩ = (DoResult.ok, ⟨[uA], 4⟩, []) ∧
    (doCycle envAllOk ⟨[], 3⟩).2.1.retryTimes = 0 := by
  constructor
  · exact (c2_ping_guard envPingDown ⟨[uA], 3⟩).1 rfl
  · exact (c2_ping_guard envAllOk ⟨[], 3⟩).2 rfl

/-- C5: provided the ping succeeds, the heartbeat write succeeds, every
stats read succeeds, and the addition loop cannot halt the process, the
cycle body returns nil whatever the traffic log inserts, the online
snapshot insert, the bulk totals update, the authoritative fetch or the
removal calls do: their errors are discarded, and in particular an
aborted reconciliation is reported as a successful cycle. -/
theorem c5_do_discards_cycle_errors (env : Env) (s : PanelState)
    (hping : env.pingOk = true) (hhb : env.heartbeatOk = true)
    (hstats : ∀ u ∈ s.userModels, readFailed (env.getUserDownlink u.Email) = false ∧
        readFailed (env.getUserUplink u.Email) = false)
    (hsafe : env.ignoreEmptyVmessID = true ∨ ∀ u, env.addUserOk u = true) :
    (doCycle env s).1 = DoResult.ok := by
  obtain ⟨logs, hlogs⟩ := getTraffic_ok_exists env s.userModels hstats
  have hfatal : (syncUser env s.userModels).fatal = false :=
    syncUser_not_fatal env s.userModels hsafe
  simp [doCycle, hping, hhb, hlogs, hfatal]

/-- Environment in which the authoritative fetch fails and the removal
call fails, while ping, heartbeat and the stats reads succeed. -/
def envSyncBroken : Env :=
  ⟨true, true, fun _ => .ok 10, fun _ => .ok 10, .error "db query err", fun _ => false,
   fun _ => true, true, 1, 7, false, false, false⟩

/-- Witness: c5_do_discards_cycle_errors on a cycle whose reconciliation
fails (authoritative fetch error) and whose ignored writes fail. -/
theorem c5_do_discards_cycle_errors_witness :
    (doCycle envSyncBroken ⟨[uA], 0⟩).1 = DoResult.ok :=
  c5_do_discards_cycle_errors envSyncBroken ⟨[uA], 0⟩ rfl rfl (by decide) (Or.inl rfl)

/-- C3: if some stats read of the cycle fails, the cycle aborts with
that error right after the heartbeat: no traffic log row, no online
snapshot, no bulk totals update and no administrative call happen, and
the cached provisioned list is unchanged. -/
theorem c3_stats_failure_aborts (env : Env) (s : PanelState)
    (hping : env.pingOk = true) (hhb : env.heartbeatOk = true)
    (hfail : ∃ u ∈ s.userModels, readFailed (env.getUserDownlink u.Email) = true ∨
        readFailed (env.getUserUplink u.Email) = true) :
    ∃ e, getTraffic env s.userModels = .error e ∧
      doCycle env s = (DoResult.fail e, ⟨s.userModels, 0⟩, [Event.heartbeat]) := by
  obtain ⟨e, herr⟩ := getTraffic_error_exists env s.userModels hfail
  exact ⟨e, herr, by simp [doCycle, hping, hhb, herr]⟩

/-- Environment whose uplink read fails for every user. -/
def envStatsFail : Env :=
  ⟨true, true, fun _ => .ok 9000, fun _ => .error "stats down", .ok [uB], fun _ => true,
   fun _ => true, true, 1, 7, true, true, true⟩

/-- Witness: c3_stats_failure_aborts on the concrete failing stats
environment. -/
theorem c3_stats_failure_aborts_witness :
    doCycle envStatsFail ⟨[uA], 5⟩ = (DoResult.fail "stats down", ⟨[uA], 0⟩, [Event.heartbeat]) := by
  obtain ⟨e, herr, hcycle⟩ := c3_stats_failure_aborts envStatsFail ⟨[uA], 5⟩ rfl rfl
    ⟨uA, by simp, Or.inr (by decide)⟩
  have hval : getTraffic envStatsFail [uA] = Except.error "stats down" := rfl
  rw [herr] at hval
  injection hval with hval
  rw [← hval]
  exact hcycle

/-- Every administrative event issued by syncUser is a remove or an add. -/
lemma syncUser_events_del_or_add (env : Env) (prov : List UserModel) :
    ∀ e ∈ (syncUser env prov).events, e.isDel = true ∨ e.isAdd = true := by
  unfold syncUser
  cases hga : env.getAllUsers with
  | error e => simp
  | ok auth =>
    by_cases hie : auth.isEmpty = true
    · simp [hie]
    · have hie' : auth.isEmpty = false := by simpa using hie
      simp only [hie', Bool.false_eq_true, if_false]
      obtain ⟨dtail, hdt, hdall⟩ := deleteLoop_events_split env
        (prov.filter fun u => !(inUserModels u auth)) prov 0 []
      cases hde : (deleteLoop env (prov.filter fun u => !(inUserModels u auth)) prov 0 []).err with
      | some e =>
        intro e' he'
        simp only [hde] at he'
        rw [hdt] at he'
        exact Or.inl (hdall e' (by simpa using he'))
      | none =>
        intro e' he'
        simp only [hde] at he'
        obtain ⟨atail, hat, haall⟩ := addLoop_events_split env
          (auth.filter fun u => !(inUserModels u prov))
          (deleteLoop env (prov.filter fun u => !(inUserModels u auth)) prov 0 []).userModels 0
          (deleteLoop env (prov.filter fun u => !(inUserModels u auth)) prov 0 []).events none
        rw [hat] at he'
        rcases List.mem_append.mp he' with hmem | hmem
        · rw [hdt] at hmem
          exact Or.inl (hdall e' (by simpa using hmem))
        · exact Or.inr (haall e' hmem)

/-- syncUser never issues a bulk totals update. -/
lemma syncUser_no_bulk (env : Env) (prov : List UserModel) :
    ((syncUser env prov).events.filter Event.isBulk) = [] := by
  rw [List.filter_eq_nil_iff]
  intro e he
  rcases syncUser_events_del_or_add env prov e he with h | h
  · cases e <;> simp_all [Event.isDel, Event.isBulk]
  · cases e <;> simp_all [Event.isAdd, Event.isBulk]

/-- Evaluation of the billing step when the exact product is a natural
number. -/
lemma mulTrafficRate_eval (rate : ℚ) (t n : Nat) (h : rate * (t : ℚ) = (n : ℚ)) :
    mulTrafficRate rate t = n := by
  rw [mulTrafficRate, h, Rat.floor_def']
  simp

/-- Traffic log events are not bulk updates. -/
lemma filter_isBulk_map_trafficLog (rate : ℚ) (logs : List UserStatsLog) :
    ((logs.map fun l => Event.trafficLog (billLog rate l.toUserTrafficLog)).filter
      Event.isBulk) = [] := by
  rw [List.filter_eq_nil_iff]
  intro e he
  obtain ⟨l, hl, rfl⟩ := List.mem_map.mp he
  simp [Event.isBulk]

/-- C6: for a user whose raw uplink+downlink is positive, the cycle
stores the raw uplink and downlink verbatim in the traffic log row,
bills uplink and downlink independently by the rate with truncation,
counts the user online exactly when raw uplink+downlink exceeds 2048
bytes, derives the display value from billed uplink + billed downlink,
and feeds the billed deltas to the bulk update; at rate 2, raw 1500 up
and 700 down bill to 3000 and 1400, the user is online (2200 > 2048)
and the display value is 4400. -/
theorem c6_traffic_pipeline (env : Env) (u : UserModel) (retry upv downv : Nat)
    (hping : env.pingOk = true) (hhb : env.heartbeatOk = true)
    (hup : env.getUserUplink u.Email = .ok upv)
    (hdown : env.getUserDownlink u.Email = .ok downv)
    (hauth : env.getAllUsers = .ok [])
    (hpos : 0 < upv + downv) :
    (∀ s : PanelState,
      (∀ v ∈ s.userModels, readFailed (env.getUserDownlink v.Email) = false ∧
        readFailed (env.getUserUplink v.Email) = false) →
      u ∈ s.userModels →
      Event.trafficLog ⟨u.ID, upv, downv, env.nodeID, env.trafficRate,
        mulTrafficRate env.trafficRate upv + mulTrafficRate env.trafficRate downv⟩
        ∈ (doCycle env s).2.2) ∧
    (doCycle env ⟨[u], retry⟩).2.2 =
      [Event.heartbeat,
       Event.trafficLog ⟨u.ID, upv, downv, env.nodeID, env.trafficRate,
         mulTrafficRate env.trafficRate upv + mulTrafficRate env.trafficRate downv⟩]
      ++ (if 2048 < upv + downv then [Event.onlineLog 1] else [])
      ++ [Event.bulkUpdate [(u.ID, mulTrafficRate env.trafficRate upv,
            mulTrafficRate env.trafficRate downv)]] ∧
    mulTrafficRate 2 1500 = 3000 ∧ mulTrafficRate 2 700 = 1400 ∧
    2048 < 1500 + 700 ∧ mulTrafficRate 2 1500 + mulTrafficRate 2 700 = 4400 := by
  refine ⟨?_, ?_, mulTrafficRate_eval 2 1500 3000 (by norm_num),
    mulTrafficRate_eval 2 700 1400 (by norm_num), by norm_num, ?_⟩
  case refine_3 =>
    rw [mulTrafficRate_eval 2 1500 3000 (by norm_num),
      mulTrafficRate_eval 2 700 1400 (by norm_num)]
  case refine_1 =>
    intro s hall hus
    obtain ⟨logs, hlogs⟩ := getTraffic_ok_exists env s.userModels hall
    have hm := getTraffic_mem env s.userModels logs u upv downv hlogs hus hdown hup hpos
    have hthis : Event.trafficLog ⟨u.ID, upv, downv, env.nodeID, env.trafficRate,
        mulTrafficRate env.trafficRate upv + mulTrafficRate env.trafficRate downv⟩
        ∈ logs.map (fun l => Event.trafficLog (billLog env.trafficRate l.toUserTrafficLog)) := by
      have := List.mem_map_of_mem
        (fun l : UserStatsLog => Event.trafficLog (billLog env.trafficRate l.toUserTrafficLog)) hm
      simpa [billLog] using this
    simp only [doCycle, hping, hhb, Bool.not_true, Bool.false_eq_true, if_false, hlogs]
    by_cases hf : (syncUser env s.userModels).fatal = true
    · simp only [hf, if_true]
      exact List.mem_append_left _ (List.mem_append_left _ (List.mem_append_left _ (List.mem_append_right _ hthis)))
    · have hf' : (syncUser env s.userModels).fatal = false := by simpa using hf
      simp only [hf', Bool.false_eq_true, if_false]
      exact List.mem_append_left _ (List.mem_append_left _ (List.mem_append_left _ (List.mem_append_right _ hthis)))
  have hgt : getTraffic env [u] =
      .ok [⟨⟨u.ID, upv, downv, env.nodeID, env.trafficRate, 0⟩, u.Port⟩] := by
    simp [getTraffic, hdown, hup, hpos]
  have hsync : syncUser env [u] = ⟨0, 0, none, false, [u], []⟩ := by
    simp [syncUser, hauth]
  simp only [doCycle, hping, hhb, Bool.not_true, Bool.false_eq_true, if_false, hgt, hsync]
  by_cases hon : 2048 < upv + downv
  · simp [billLog, hon]
  · simp [billLog, hon]

/-- Environment for the traffic pipeline witness: rate 2, uplink read
1500, downlink read 700, empty authoritative list. -/
def envTraffic : Env :=
  ⟨true, true, fun _ => .ok 700, fun _ => .ok 1500, .ok [], fun _ => true, fun _ => true,
   true, 2, 7, true, true, true⟩

/-- Witness: c6_traffic_pipeline at the concrete example of the spec. -/
theorem c6_traffic_pipeline_witness :
    (doCycle envTraffic ⟨[uA], 0⟩).2.2 =
      [Event.heartbeat,
       Event.trafficLog ⟨1, 1500, 700, 7, 2, 4400⟩,
       Event.onlineLog 1,
       Event.bulkUpdate [(1, 3000, 1400)]] := by
  have h := (c6_traffic_pipeline envTraffic uA 0 1500 700 rfl rfl rfl rfl rfl (by decide)).2.1
  rw [h]
  have h1 : mulTrafficRate 2 1500 = 3000 := mulTrafficRate_eval _ _ _ (by norm_num)
  have h2 : mulTrafficRate 2 700 = 1400 := mulTrafficRate_eval _ _ _ (by norm_num)
  simp [h1, h2, uA, envTraffic]

/-- C9: whenever at least one cached user has positive raw traffic and
the cycle collects successfully, the whole cycle contains exactly one
bulk totals update event, whose payload carries one entry per collected
user: the user identifier with that user's own billed uplink and
downlink deltas.  No other bulk call is issued, in particular never one
per user. -/
theorem c9_single_bulk_update (env : Env) (s : PanelState)
    (hping : env.pingOk = true) (hhb : env.heartbeatOk = true)
    (hstats : ∀ u ∈ s.userModels, readFailed (env.getUserDownlink u.Email) = false ∧
        readFailed (env.getUserUplink u.Email) = false)
    (hpos : ∃ u ∈ s.userModels, ∃ upv downv, env.getUserUplink u.Email = .ok upv ∧
        env.getUserDownlink u.Email = .ok downv ∧ 0 < upv + downv) :
    ∃ logs, getTraffic env s.userModels = .ok logs ∧ logs ≠ [] ∧
      ((doCycle env s).2.2.filter Event.isBulk) =
        [Event.bulkUpdate (logs.map fun l =>
          (l.UserID, mulTrafficRate env.trafficRate l.Uplink,
           mulTrafficRate env.trafficRate l.Downlink))] := by
  obtain ⟨logs, hlogs⟩ := getTraffic_ok_exists env s.userModels hstats
  obtain ⟨u, hu, upv, downv, hup, hdown, hp⟩ := hpos
  have hmem := getTraffic_mem env s.userModels logs u upv downv hlogs hu hdown hup hp
  have hne : logs ≠ [] := by
    intro h
    rw [h] at hmem
    simp at hmem
  refine ⟨logs, hlogs, hne, ?_⟩
  have hrows : (logs.map fun l =>
      (l.UserID, mulTrafficRate env.trafficRate l.Uplink,
       mulTrafficRate env.trafficRate l.Downlink)).isEmpty = false := by
    cases logs with
    | nil => exact absurd rfl hne
    | cons a l => rfl
  simp only [doCycle, hping, hhb, Bool.not_true, Bool.false_eq_true, if_false, hlogs]
  by_cases hf : (syncUser env s.userModels).fatal = true
  · simp only [hf, if_true, hrows, Bool.false_eq_true, if_false]
    rw [List.filter_append, List.filter_append, List.filter_append, List.filter_append]
    rw [filter_isBulk_map_trafficLog, syncUser_no_bulk]
    by_cases hon : 0 < (logs.filter fun l => 2048 < l.Uplink + l.Downlink).length
    · simp [hon, Event.isBulk]
    · simp [hon, Event.isBulk]
  · have hf' : (syncUser env s.userModels).fatal = false := by simpa using hf
    simp only [hf', Bool.false_eq_true, if_false, hrows]
    rw [List.filter_append, List.filter_append, List.filter_append, List.filter_append]
    rw [filter_isBulk_map_trafficLog, syncUser_no_bulk]
    by_cases hon : 0 < (logs.filter fun l => 2048 < l.Uplink + l.Downlink).length
    · simp [hon, Event.isBulk]
    · simp [hon, Event.isBulk]

/-- Environment for the bulk update witness: two cached users with
positive traffic, rate 3. -/
def envBulk : Env :=
  ⟨true, true, fun _ => .ok 100, fun _ => .ok 4000, .ok [], fun _ => true, fun _ => true,
   true, 3, 7, true, true, true⟩

/-- Witness: c9_single_bulk_update with two collected users produces
exactly one bulk event carrying both billed deltas. -/
theorem c9_single_bulk_update_witness :
    ((doCycle envBulk ⟨[uA, uB], 0⟩).2.2.filter Event.isBulk) =
      [Event.bulkUpdate [(1, 12000, 300), (2, 12000, 300)]] := by
  obtain ⟨logs, hlogs, hne, hfilter⟩ := c9_single_bulk_update envBulk ⟨[uA, uB], 0⟩ rfl rfl
    (by decide) ⟨uA, by simp, 4000, 100, rfl, rfl, by decide⟩
  have hval : getTraffic envBulk [uA, uB] =
      .ok [⟨⟨1, 4000, 100, 7, 3, 0⟩, 1001⟩, ⟨⟨2, 4000, 100, 7, 3, 0⟩, 1002⟩] := rfl
  rw [hlogs] at hval
  injection hval with hval
  rw [hfilter, hval]
  have h1 : mulTrafficRate envBulk.trafficRate 4000 = 12000 :=
    mulTrafficRate_eval _ _ _ (by norm_num [envBulk])
  have h2 : mulTrafficRate envBulk.trafficRate 100 = 300 :=
    mulTrafficRate_eval _ _ _ (by norm_num [envBulk])
  simp [h1, h2]

/-- The cache left by a fully successful reconciliation holds exactly
the provisioned entries still authoritative followed by the new
authoritative entries. -/
lemma syncUser_all_ok_userModels (env : Env) (prov auth : List UserModel)
    (hget : env.getAllUsers = .ok auth) (hne : auth ≠ [])
    (hdel : ∀ s, env.delUserOk s = true) (hadd : ∀ u, env.addUserOk u = true) :
    (syncUser env prov).userModels =
      (prov.filter fun u => inUserModels u auth)
        ++ (auth.filter fun u => !(inUserModels u prov)) := by
  rw [syncUser_ok_char env prov auth hget hne (fun v hv => hdel v.Email) (Or.inr hadd)]
  rw [List.filter_eq_self.mpr (fun a ha => hadd a)]

/-- C7: after a reconciliation in which every add and remove call
succeeded, a second reconciliation against the same fetched
authoritative list issues no administrative call, changes no counter,
and leaves the cache unchanged. -/
theorem c7_idempotent (env env2 : Env) (prov auth : List UserModel)
    (hget : env.getAllUsers = .ok auth) (hget2 : env2.getAllUsers = .ok auth)
    (hdel : ∀ s, env.delUserOk s = true) (hadd : ∀ u, env.addUserOk u = true) :
    (syncUser env2 (syncUser env prov).userModels).events = [] ∧
    (syncUser env2 (syncUser env prov).userModels).userModels =
      (syncUser env prov).userModels ∧
    (syncUser env2 (syncUser env prov).userModels).added = 0 ∧
    (syncUser env2 (syncUser env prov).userModels).deleted = 0 := by
  cases hauth : auth with
  | nil =>
    subst hauth
    have h1 : syncUser env prov = ⟨0, 0, none, false, prov, []⟩ := by
      simp [syncUser, hget]
    have h2 : syncUser env2 prov = ⟨0, 0, none, false, prov, []⟩ := by
      simp [syncUser, hget2]
    rw [h1]
    simp [h2]
  | cons a auth' =>
    have hne : auth ≠ [] := by rw [hauth]; simp
    have hnew := syncUser_all_ok_userModels env prov auth hget hne hdel hadd
    have hmemnew : ∀ x ∈ (syncUser env prov).userModels, x ∈ auth := by
      intro x hx
      rw [hnew] at hx
      rcases List.mem_append.mp hx with hx | hx
      · have := List.of_mem_filter hx
        simpa using this
      · exact (List.mem_filter.mp hx).1
    have hmemauth : ∀ x ∈ auth, x ∈ (syncUser env prov).userModels := by
      intro x hx
      rw [hnew]
      by_cases hp : x ∈ prov
      · exact List.mem_append_left _ (List.mem_filter.mpr ⟨hp, by simpa using hx⟩)
      · exact List.mem_append_right _ (List.mem_filter.mpr ⟨hx, by simpa using hp⟩)
    have hdels2 : ((syncUser env prov).userModels.filter
        fun u => !(inUserModels u auth)) = [] := by
      rw [List.filter_eq_nil_iff]
      intro x hx
      simp [hmemnew x hx]
    have hadds2 : (auth.filter fun u => !(inUserModels u (syncUser env prov).userModels)) = [] := by
      rw [List.filter_eq_nil_iff]
      intro x hx
      simp [hmemauth x hx]
    have hie : auth.isEmpty = false := by rw [hauth]; rfl
    have hfinal : ∀ np : List UserModel,
        (np.filter fun u => !(inUserModels u auth)) = [] →
        (auth.filter fun u => !(inUserModels u np)) = [] →
        syncUser env2 np = ⟨0, 0, none, false, np, []⟩ := by
      intro np h1 h2
      simp only [syncUser, hget2, hie, Bool.false_eq_true, if_false, h1, h2]
      simp [deleteLoop, addLoop]
    rw [hfinal _ hdels2 hadds2]
    simp

/-- The addition loop only ever appends scheduled users to the cache it
was given. -/
lemma addLoop_userModels_split (env : Env) :
    ∀ (adds l : List UserModel) (n : Nat) (evs : List Event) (err : Option String),
    ∃ extra, (addLoop env adds l n evs err).userModels = l ++ extra ∧
      ∀ x ∈ extra, x ∈ adds := by
  intro adds
  induction adds with
  | nil => intro l n evs err; exact ⟨[], by simp [addLoop], by simp⟩
  | cons a rest ih =>
    intro l n evs err
    by_cases hok : env.addUserOk a = true
    · obtain ⟨extra, hx, hmem⟩ := ih (l ++ [a]) (n + 1) (evs ++ [Event.addUser a]) none
      refine ⟨a :: extra, ?_, ?_⟩
      · simp only [addLoop, hok, if_true]
        rw [hx]; simp
      · intro x hxm
        rcases List.mem_cons.mp hxm with rfl | hm
        · simp
        · simp [hmem x hm]
    · have hok' : env.addUserOk a = false := by simpa using hok
      by_cases hig : env.ignoreEmptyVmessID = true
      · obtain ⟨extra, hx, hmem⟩ := ih l n (evs ++ [Event.addUser a]) (some "add user err")
        refine ⟨extra, ?_, fun x hm => by simp [hmem x hm]⟩
        simp only [addLoop, hok', Bool.false_eq_true, if_false, hig, if_true]
        exact hx
      · have hig' : env.ignoreEmptyVmessID = false := by simpa using hig
        refine ⟨[], ?_, by simp⟩
        simp [addLoop, hok', hig']

/-- Unfolding of syncUser when the fetch succeeds nonempty and every
scheduled removal call succeeds: the result is the addition loop run
after the completed deletion loop. -/
lemma syncUser_eq_addLoop (env : Env) (prov auth : List UserModel)
    (hget : env.getAllUsers = .ok auth) (hne : auth ≠ [])
    (hdel : ∀ v ∈ prov.filter (fun u => !(inUserModels u auth)), env.delUserOk v.Email = true) :
    syncUser env prov =
      ⟨(addLoop env (auth.filter fun u => !(inUserModels u prov))
          (prov.filter fun u => inUserModels u auth) 0
          ((prov.filter fun u => !(inUserModels u auth)).map fun v => Event.delUser v.Email)
          none).added,
       (prov.filter fun u => !(inUserModels u auth)).length,
       (addLoop env (auth.filter fun u => !(inUserModels u prov))
          (prov.filter fun u => inUserModels u auth) 0
          ((prov.filter fun u => !(inUserModels u auth)).map fun v => Event.delUser v.Email)
          none).err,
       (addLoop env (auth.filter fun u => !(inUserModels u prov))
          (prov.filter fun u => inUserModels u auth) 0
          ((prov.filter fun u => !(inUserModels u auth)).map fun v => Event.delUser v.Email)
          none).fatal,
       (addLoop env (auth.filter fun u => !(inUserModels u prov))
          (prov.filter fun u => inUserModels u auth) 0
          ((prov.filter fun u => !(inUserModels u auth)).map fun v => Event.delUser v.Email)
          none).userModels,
       (addLoop env (auth.filter fun u => !(inUserModels u prov))
          (prov.filter fun u => inUserModels u auth) 0
          ((prov.filter fun u => !(inUserModels u auth)).map fun v => Event.delUser v.Email)
          none).events⟩ := by
  have hie : auth.isEmpty = false := by
    cases auth with
    | nil => exact absurd rfl hne
    | cons a l => rfl
  simp only [syncUser, hget, hie, Bool.false_eq_true, if_false]
  rw [deleteLoop_filter_ok env (fun u => inUserModels u auth) prov 0 [] hdel]
  simp

/-- C4: removals are applied before any addition; when every scheduled
removal call succeeds the deleted counter equals the number of scheduled
removals and every scheduled removal is gone from the cache; the first
failing removal call aborts reconciliation at once: the error is
reported, only the preceding removals are counted, only the attempted
removal calls appear (none of the later scheduled removals), and no
addition is attempted. -/
theorem c4_removals_first (env : Env) (prov auth : List UserModel)
    (hget : env.getAllUsers = .ok auth) (hne : auth ≠ []) :
    (∃ evs₁ evs₂, (syncUser env prov).events = evs₁ ++ evs₂ ∧
      (∀ e ∈ evs₁, e.isDel = true) ∧ (∀ e ∈ evs₂, e.isAdd = true)) ∧
    ((∀ v ∈ prov.filter (fun u => !(inUserModels u auth)), env.delUserOk v.Email = true) →
      (syncUser env prov).deleted = (prov.filter fun u => !(inUserModels u auth)).length ∧
      ∀ u ∈ prov.filter (fun u => !(inUserModels u auth)), u ∉ (syncUser env prov).userModels) ∧
    (∀ ds₁ u ds₂, prov.filter (fun v => !(inUserModels v auth)) = ds₁ ++ u :: ds₂ →
      (∀ v ∈ ds₁, env.delUserOk v.Email = true) → env.delUserOk u.Email = false →
      (syncUser env prov).err = some "del user err" ∧
      (syncUser env prov).deleted = ds₁.length ∧
      (syncUser env prov).events =
        ds₁.map (fun v => Event.delUser v.Email) ++ [Event.delUser u.Email] ∧
      (syncUser env prov).added = 0) := by
  have hie : auth.isEmpty = false := by
    cases auth with
    | nil => exact absurd rfl hne
    | cons a l => rfl
  refine ⟨?_, ?_, ?_⟩
  · simp only [syncUser, hget, hie, Bool.false_eq_true, if_false]
    obtain ⟨dtail, hdt, hdall⟩ := deleteLoop_events_split env
      (prov.filter fun u => !(inUserModels u auth)) prov 0 []
    cases hde : (deleteLoop env (prov.filter fun u => !(inUserModels u auth)) prov 0 []).err with
    | some e =>
      refine ⟨dtail, [], ?_, hdall, by simp⟩
      simp only [hde]
      rw [hdt]; simp
    | none =>
      obtain ⟨atail, hat, haall⟩ := addLoop_events_split env
        (auth.filter fun u => !(inUserModels u prov))
        (deleteLoop env (prov.filter fun u => !(inUserModels u auth)) prov 0 []).userModels 0
        (deleteLoop env (prov.filter fun u => !(inUserModels u auth)) prov 0 []).events none
      refine ⟨dtail, atail, ?_, hdall, haall⟩
      simp only [hde]
      rw [hat, hdt]; simp
  · intro hdelok
    rw [syncUser_eq_addLoop env prov auth hget hne hdelok]
    refine ⟨rfl, ?_⟩
    intro u hu hmem
    obtain ⟨extra, hx, hxm⟩ := addLoop_userModels_split env
      (auth.filter fun v => !(inUserModels v prov)) (prov.filter fun v => inUserModels v auth) 0
      ((prov.filter fun v => !(inUserModels v auth)).map fun v => Event.delUser v.Email) none
    rw [hx] at hmem
    have h2 := List.of_mem_filter hu
    simp only [Bool.not_eq_true', inUserModels_eq_false_iff] at h2
    rcases List.mem_append.mp hmem with hm | hm
    · have h1 := (List.mem_filter.mp hm).2
      simp only [inUserModels_iff] at h1
      exact h2 h1
    · have hx2 := hxm u hm
      exact h2 ((List.mem_filter.mp hx2).1)
  · intro ds₁ u ds₂ hsplit h1 hu
    obtain ⟨rem, hrem⟩ := syncUser_del_fail env prov auth ds₁ u ds₂ hget hne hsplit h1 hu
    rw [hrem]
    exact ⟨rfl, rfl, rfl, rfl⟩

/-- Environment for the removal failure witness: the remove call for uA
fails while the one for uB succeeds, and the authoritative list is uC. -/
def envDelFail : Env :=
  ⟨true, true, fun _ => .ok 0, fun _ => .ok 0, .ok [uC],
   fun s => s != "a@node", fun _ => true, true, 1, 7, true, true, true⟩

/-- Witness: c4_removals_first on a run whose second scheduled removal
fails, showing the abort after one successful removal and no addition. -/
theorem c4_removals_first_witness :
    (syncUser envDelFail [uB, uA]).err = some "del user err" ∧
    (syncUser envDelFail [uB, uA]).deleted = 1 ∧
    (syncUser envDelFail [uB, uA]).events =
      [Event.delUser "b@node", Event.delUser "a@node"] ∧
    (syncUser envDelFail [uB, uA]).added = 0 := by
  have h := (c4_removals_first envDelFail [uB, uA] [uC] rfl (by simp)).2.2
    [uB] uA [] (by decide) (by decide) (by decide)
  exact ⟨h.1, h.2.1, by rw [h.2.2.1]; decide, h.2.2.2⟩

/-- C10: when an add call fails during reconciliation on a tolerant
node, the failed user is skipped (not appended, not counted) and the
remaining additions are still attempted; on a non tolerant node any
failing scheduled addition halts the process. -/
theorem c10_add_failure_modes (env : Env) (prov auth : List UserModel)
    (hget : env.getAllUsers = .ok auth) (hne : auth ≠ [])
    (hdel : ∀ v ∈ prov.filter (fun u => !(inUserModels u auth)), env.delUserOk v.Email = true) :
    (env.ignoreEmptyVmessID = true →
      (syncUser env prov).fatal = false ∧
      (syncUser env prov).events =
        (prov.filter fun u => !(inUserModels u auth)).map (fun v => Event.delUser v.Email)
          ++ (auth.filter fun u => !(inUserModels u prov)).map Event.addUser ∧
      (syncUser env prov).added =
        ((auth.filter fun u => !(inUserModels u prov)).filter env.addUserOk).length ∧
      (∀ u ∈ auth.filter fun v => !(inUserModels v prov), env.addUserOk u = false →
        u ∉ (syncUser env prov).userModels)) ∧
    (env.ignoreEmptyVmessID = false →
      (∃ u ∈ auth.filter fun v => !(inUserModels v prov), env.addUserOk u = false) →
      (syncUser env prov).fatal = true) := by
  constructor
  · intro hig
    rw [syncUser_ok_char env prov auth hget hne hdel (Or.inl hig)]
    refine ⟨rfl, rfl, rfl, ?_⟩
    intro u hu hfail hmem
    have h2 := List.of_mem_filter hu
    simp only [Bool.not_eq_true', inUserModels_eq_false_iff] at h2
    rcases List.mem_append.mp hmem with hm | hm
    · exact h2 ((List.mem_filter.mp hm).1)
    · have h3 := (List.mem_filter.mp hm).2
      rw [hfail] at h3
      cases h3
  · intro hig hex
    rw [syncUser_eq_addLoop env prov auth hget hne hdel]
    exact addLoop_fatal env hig _ hex _ _ _ _

/-- Environment for the add failure witness: tolerant node, the add
call fails exactly for uB, authoritative list is uB then uC. -/
def envAddFail : Env :=
  ⟨true, true, fun _ => .ok 0, fun _ => .ok 0, .ok [uB, uC], fun _ => true,
   fun u => u.ID != 2, true, 1, 7, true, true, true⟩

/-- Witness: c10_add_failure_modes on a tolerant node where the first
scheduled addition fails and the second succeeds. -/
theorem c10_add_failure_modes_witness :
    (syncUser envAddFail []).fatal = false ∧
    (syncUser envAddFail []).events = [Event.addUser uB, Event.addUser uC] ∧
    (syncUser envAddFail []).added = 1 ∧
    uB ∉ (syncUser envAddFail []).userModels := by
  have h := (c10_add_failure_modes envAddFail [] [uB, uC] rfl (by simp) (by simp)).1 rfl
  refine ⟨h.1, ?_, ?_, h.2.2.2 uB (by decide) (by decide)⟩
  · rw [h.2.1]; decide
  · rw [h.2.2.1]; decide

/-- Environment for the C1 counterexample: ping, heartbeat, stats and
every administrative call succeed, and the authoritative fetch succeeds
with the empty list. -/
def envC1 : Env :=
  ⟨true, true, fun _ => .ok 0, fun _ => .ok 0, .ok [], fun _ => true, fun _ => true,
   true, 1, 7, true, true, true⟩

/-- Counterexample to C1 as stated: the authoritative fetch succeeds
with the empty list and every administrative call would succeed; the
provisioned user uA has no fully equal entry in the fresh authoritative
set, yet reconciliation issues no remove call for it and uA is still
provisioned afterwards. -/
theorem c1_counterexample :
    envC1.getAllUsers = .ok [] ∧ uA ∉ ([] : List UserModel) ∧
    ¬(((syncUser envC1 [uA]).events.count (Event.delUser uA.Email)) = 1 ∧
      uA ∉ (syncUser envC1 [uA]).userModels) :=
  ⟨rfl, by decide, by decide⟩

/-- C1 (amended): provided the fetched authoritative list is non empty
and duplicate free and the provisioned labels are distinct, a fully
successful reconciliation issues exactly one add call for each
authoritative user with no fully equal provisioned entry, which is then
provisioned, and exactly one remove call for each provisioned user with
no fully equal authoritative entry, which is then gone; a single field
change of a user is an instance of both. -/
theorem c1_full_record_diff (env : Env) (prov auth : List UserModel)
    (hget : env.getAllUsers = .ok auth) (hne : auth ≠ [])
    (hnodupA : auth.Nodup) (hnodupP : (prov.map fun u => u.Email).Nodup)
    (hdel : ∀ s, env.delUserOk s = true) (hadd : ∀ u, env.addUserOk u = true) :
    (∀ u ∈ auth, u ∉ prov →
      ((syncUser env prov).events.count (Event.addUser u)) = 1 ∧
      u ∈ (syncUser env prov).userModels) ∧
    (∀ u ∈ prov, u ∉ auth →
      ((syncUser env prov).events.count (Event.delUser u.Email)) = 1 ∧
      u ∉ (syncUser env prov).userModels) := by
  rw [syncUser_ok_char env prov auth hget hne (fun v hv => hdel v.Email) (Or.inr hadd)]
  have hfeq : (auth.filter fun u => !(inUserModels u prov)).filter env.addUserOk
      = auth.filter fun u => !(inUserModels u prov) :=
    List.filter_eq_self.mpr (fun a ha => hadd a)
  rw [hfeq]
  constructor
  · intro u hu hnp
    have humem : u ∈ auth.filter fun v => !(inUserModels v prov) :=
      List.mem_filter.mpr ⟨hu, by simpa using hnp⟩
    constructor
    · rw [List.count_append]
      have h0 : ((prov.filter fun v => !(inUserModels v auth)).map
          (fun v => Event.delUser v.Email)).count (Event.addUser u) = 0 := by
        rw [List.count_eq_zero]
        intro hmm
        obtain ⟨x, hx, hexx⟩ := List.mem_map.mp hmm
        cases hexx
      rw [h0, Nat.zero_add]
      have hinj : Function.Injective Event.addUser := fun a b hab => by injection hab
      rw [List.count_map_of_injective _ _ hinj]
      exact List.count_eq_one_of_mem (hnodupA.filter _) humem
    · exact List.mem_append_right _ humem
  · intro u hu hna
    have hdmem : u ∈ prov.filter fun v => !(inUserModels v auth) :=
      List.mem_filter.mpr ⟨hu, by simpa using hna⟩
    constructor
    · rw [List.count_append]
      have h0 : ((auth.filter fun v => !(inUserModels v prov)).map
          Event.addUser).count (Event.delUser u.Email) = 0 := by
        rw [List.count_eq_zero]
        intro hmm
        obtain ⟨x, hx, hexx⟩ := List.mem_map.mp hmm
        cases hexx
      rw [h0, Nat.add_zero]
      have hinj : Function.Injective Event.delUser := fun a b hab => by injection hab
      have hmapmap : (prov.filter fun v => !(inUserModels v auth)).map
          (fun v => Event.delUser v.Email)
          = ((prov.filter fun v => !(inUserModels v auth)).map fun v => v.Email).map
            Event.delUser := by
        rw [List.map_map]
        rfl
      rw [hmapmap, List.count_map_of_injective _ _ hinj]
      have hsub : List.Sublist
          ((prov.filter fun v => !(inUserModels v auth)).map fun v => v.Email)
          (prov.map fun v => v.Email) := (List.filter_sublist _).map _
      exact List.count_eq_one_of_mem (hnodupP.sublist hsub)
        (List.mem_map_of_mem _ hdmem)
    · intro hmem
      rcases List.mem_append.mp hmem with hm | hm
      · have h1 := (List.mem_filter.mp hm).2
        simp only [inUserModels_iff] at h1
        exact hna h1
      · exact hna ((List.mem_filter.mp hm).1)

/-- uA with only the credential field changed. -/
def uAcred : UserModel := ⟨1, "id-a-rotated", "a@node", 1001⟩

/-- Environment whose authoritative list is uA with a rotated
credential, with every call succeeding. -/
def envRotate : Env :=
  ⟨true, true, fun _ => .ok 0, fun _ => .ok 0, .ok [uAcred], fun _ => true, fun _ => true,
   true, 1, 7, true, true, true⟩

/-- Witness: c1_full_record_diff on a credential rotation, which yields
exactly one remove call for the old record and one add call for the new
one, never an in place update. -/
theorem c1_full_record_diff_witness :
    ((syncUser envRotate [uA]).events.count (Event.addUser uAcred)) = 1 ∧
    uAcred ∈ (syncUser envRotate [uA]).userModels ∧
    ((syncUser envRotate [uA]).events.count (Event.delUser uA.Email)) = 1 ∧
    uA ∉ (syncUser envRotate [uA]).userModels := by
  obtain ⟨ha, hd⟩ := c1_full_record_diff envRotate [uA] [uAcred] rfl (by simp) (by simp)
    (by simp) (fun _ => rfl) (fun _ => rfl)
  have h1 := ha uAcred (by simp) (by decide)
  have h2 := hd uA (by simp) (by decide)
  exact ⟨h1.1, h1.2, h2.1, h2.2⟩

/-- Witness: c7_idempotent at a concrete first run that removes uA and
adds uB. -/
theorem c7_idempotent_witness :
    (syncUser envAllOk (syncUser envAllOk [uA]).userModels).events = [] ∧
    (syncUser envAllOk (syncUser envAllOk [uA]).userModels).userModels =
      (syncUser envAllOk [uA]).userModels := by
  have h := c7_idempotent envAllOk envAllOk [uA] [uB] rfl rfl (fun _ => rfl) (fun _ => rfl)
  exact ⟨h.1, h.2.1⟩

end SSRPanel
